import Mathlib

/-!
Shallow embedding of `src/hw_m2_se.py` (contact manager: `Phone`/`Birthday`
validation, `Record` phone operations, `AddressBook` mapping, and the
upcoming-birthday query with weekend roll-forward).

Python strings are modelled as `List Char` (the relevant strings are ASCII:
digit strings, `DD.MM.YYYY` dates, names).  Python `datetime.date` is modelled
by `PyDate` with CPython's proleptic-Gregorian ordinal arithmetic.  Mutating
methods that can raise are modelled as `Except (String × T) T`, where the
error case carries the state of the object at the moment the exception
propagates (so atomicity claims are contentful).
-/

namespace HwM2

/-- Python strings, modelled as lists of characters. -/
abbrev Str := List Char

/-- Coerce a Lean string literal to the `Str` model. -/
def str (s : String) : Str := s.data

/-! ## Calendar model (CPython `datetime.date`) -/

/-- A calendar date as CPython's `datetime.date` stores it (year, month, day).
Validity is a separate predicate, mirroring the constructor's checks. -/
structure PyDate where
  year : Nat
  month : Nat
  day : Nat
  deriving DecidableEq, Repr

/-- CPython `_is_leap`: divisible by 4 and (not by 100 or by 400). -/
def isLeap (y : Nat) : Bool := y % 4 == 0 && (y % 100 != 0 || y % 400 == 0)

/-- CPython `_days_in_month` (month 1..12; Feb gets 29 in leap years). -/
def daysInMonth (y m : Nat) : Nat :=
  if m = 2 then (if isLeap y then 29 else 28)
  else if m = 4 then 30
  else if m = 6 then 30
  else if m = 9 then 30
  else if m = 11 then 30
  else 31

/-- Cumulative days before month `m` in year `y` (CPython `_days_before_month`). -/
def daysBeforeMonth (y m : Nat) : Nat :=
  let L := if isLeap y then 1 else 0
  if m = 1 then 0
  else if m = 2 then 31
  else if m = 3 then 59 + L
  else if m = 4 then 90 + L
  else if m = 5 then 120 + L
  else if m = 6 then 151 + L
  else if m = 7 then 181 + L
  else if m = 8 then 212 + L
  else if m = 9 then 243 + L
  else if m = 10 then 273 + L
  else if m = 11 then 304 + L
  else 334 + L

/-- Structural validity without the `MAXYEAR` bound: month and day in range,
year positive.  Closed under day-successor (which may leave year 9999). -/
def validShape (d : PyDate) : Bool :=
  1 ≤ d.year && 1 ≤ d.month && d.month ≤ 12 && 1 ≤ d.day &&
    d.day ≤ daysInMonth d.year d.month

/-- The checks of the `datetime.date` constructor: `MINYEAR ≤ year ≤ MAXYEAR`
(1..9999), month 1..12, day 1..days-in-month. -/
def validDate (d : PyDate) : Bool := validShape d && d.year ≤ 9999

/-- CPython `date.toordinal`: day count with 0001-01-01 as ordinal 1. -/
def toOrdinal (d : PyDate) : Nat :=
  365 * (d.year - 1) + (d.year - 1) / 4 - (d.year - 1) / 100 + (d.year - 1) / 400
    + daysBeforeMonth d.year d.month + d.day

/-- CPython `date.weekday`: Monday = 0 … Sunday = 6. -/
def weekday (d : PyDate) : Nat := (toOrdinal d + 6) % 7

/-- Python `date` comparison (`<`): lexicographic on (year, month, day). -/
def pyLt (a b : PyDate) : Bool :=
  decide (a.year < b.year ∨ (a.year = b.year ∧
    (a.month < b.month ∨ (a.month = b.month ∧ a.day < b.day))))

/-- The next calendar day (carrying month and year). -/
def succDay (d : PyDate) : PyDate :=
  if d.day < daysInMonth d.year d.month then ⟨d.year, d.month, d.day + 1⟩
  else if d.month < 12 then ⟨d.year, d.month + 1, 1⟩
  else ⟨d.year + 1, 1, 1⟩

/-- `date + timedelta(days=k)` for `k ≥ 0`, as iterated day-successor. -/
def addDays (d : PyDate) (k : Nat) : PyDate := succDay^[k] d

/-- `date.replace(year=y)`: rebuilds the date through the constructor, so it
raises `ValueError` (here `none`) when the new combination is invalid
(e.g. Feb 29 onto a non-leap year, or a year outside 1..9999). -/
def replaceYear (d : PyDate) (y : Nat) : Option PyDate :=
  if validDate ⟨y, d.month, d.day⟩ then some ⟨y, d.month, d.day⟩ else none

/-! ## Digit strings, `strftime('%d.%m.%Y')` and `strptime('%d.%m.%Y')` -/

/-- The decimal digit character for `n < 10`. -/
def digitChar (n : Nat) : Char :=
  if n = 0 then '0' else if n = 1 then '1' else if n = 2 then '2'
  else if n = 3 then '3' else if n = 4 then '4' else if n = 5 then '5'
  else if n = 6 then '6' else if n = 7 then '7' else if n = 8 then '8'
  else if n = 9 then '9' else '*'

/-- Numeric value of a digit character. -/
def digToNat (c : Char) : Nat := c.toNat - 48

/-- Decimal value of a digit string (CPython `int` of the matched group). -/
def strToNat (s : Str) : Nat := s.foldl (fun a c => a * 10 + digToNat c) 0

/-- Two-digit zero-padded rendering (strftime `%d` / `%m`). -/
def pad2 (n : Nat) : Str := [digitChar (n / 10 % 10), digitChar (n % 10)]

/-- Four-digit zero-padded rendering (strftime `%Y` for years ≤ 9999). -/
def pad4 (n : Nat) : Str :=
  [digitChar (n / 1000 % 10), digitChar (n / 100 % 10),
   digitChar (n / 10 % 10), digitChar (n % 10)]

/-- `date.strftime('%d.%m.%Y')`. -/
def fmtDMY (d : PyDate) : Str := pad2 d.day ++ '.' :: (pad2 d.month ++ '.' :: pad4 d.year)

/-- Split a string at every `'.'` (the shape `strptime`'s compiled regex
imposes: the three numeric groups contain no dots, so a successful match
is exactly a split at the two literal dots). -/
def splitDots : Str → List Str
  | [] => [[]]
  | c :: rest =>
    if c = '.' then [] :: splitDots rest
    else
      match splitDots rest with
      | g :: gs => (c :: g) :: gs
      | [] => [[c]]

/-- The day group of `strptime` (`%d` regex `3[01]|[12]\d|0[1-9]|[1-9]`):
one or two digits with value 1..31. -/
def matchDay (s : Str) : Option Nat :=
  if s.all Char.isDigit && (s.length == 1 || s.length == 2)
      && 1 ≤ strToNat s && strToNat s ≤ 31 then some (strToNat s) else none

/-- The month group of `strptime` (`%m` regex `1[0-2]|0[1-9]|[1-9]`):
one or two digits with value 1..12. -/
def matchMonth (s : Str) : Option Nat :=
  if s.all Char.isDigit && (s.length == 1 || s.length == 2)
      && 1 ≤ strToNat s && strToNat s ≤ 12 then some (strToNat s) else none

/-- The year group of `strptime` (`%Y` regex `\d\d\d\d`): exactly four digits. -/
def matchYear (s : Str) : Option Nat :=
  if s.all Char.isDigit && s.length == 4 then some (strToNat s) else none

/-- `datetime.strptime(s, '%d.%m.%Y').date()`: the whole string must be
day-group `.` month-group `.` year-group, and the resulting triple must pass
the `date` constructor's checks (so `30.02.2024` raises `ValueError`). -/
def parseDMY (s : Str) : Option PyDate :=
  match splitDots s with
  | [ds, ms, ys] => do
    let d ← matchDay ds
    let m ← matchMonth ms
    let y ← matchYear ys
    if validDate ⟨y, m, d⟩ then some ⟨y, m, d⟩ else none
  | _ => none

/-! ## Validated fields (`Phone`, `Birthday`) -/

/-- Python `str.isdigit()` for ASCII strings: nonempty and all characters
decimal digits. -/
def pyIsdigit (s : Str) : Bool := !s.isEmpty && s.all Char.isDigit

/-- `Phone.__init__`: raises `ValueError` unless `value.isdigit()` and
`len(value) == 10`; otherwise stores the string unchanged. -/
def mkPhone (s : Str) : Except String Str :=
  if pyIsdigit s && s.length == 10 then .ok s
  else .error "The number must consist of numbers only and 10 digits!"

/-- `Birthday.__init__`: raises `ValueError` unless
`datetime.strptime(value, '%d.%m.%Y')` succeeds; stores the string unchanged. -/
def mkBirthday (s : Str) : Except String Str :=
  match parseDMY s with
  | some _ => .ok s
  | none => .error "Invalid date format. Use DD.MM.YYYY"

/-! ## `Record` -/

/-- One contact: name, ordered phone list (stored `Phone.value` strings) and
optional birthday (stored `Birthday.value` string). -/
structure Record where
  name : Str
  phones : List Str
  birthday : Option Str
  deriving DecidableEq, Repr

/-- `Record(name)`: empty phone list, no birthday. -/
def Record.mk' (name : Str) : Record := ⟨name, [], none⟩

/-- `Record.find_phone`: first phone whose value equals `v`, else `None`. -/
def find_phone (r : Record) (v : Str) : Option Str := r.phones.find? (· == v)

/-- `Record.remove_phone`: removes the phone object `find_phone` returned
(the first occurrence of `v`); silently does nothing when absent. -/
def remove_phone (r : Record) (v : Str) : Record :=
  match find_phone r v with
  | some p => ⟨r.name, r.phones.erase p, r.birthday⟩
  | none => r

/-- `Record.add_phone`: `Phone(phone)` is constructed (and may raise) before
the append, so on failure the phone list is untouched.  The error carries the
record's state at the moment the exception propagates. -/
def add_phone (r : Record) (v : Str) : Except (String × Record) Record :=
  match mkPhone v with
  | .ok p => .ok ⟨r.name, r.phones ++ [p], r.birthday⟩
  | .error e => .error (e, r)

/-- `Record.add_birthday`: `Birthday(birthday)` is constructed (and may raise)
before the assignment, so on failure the birthday is untouched. -/
def add_birthday (r : Record) (v : Str) : Except (String × Record) Record :=
  match mkBirthday v with
  | .ok b => .ok ⟨r.name, r.phones, some b⟩
  | .error e => .error (e, r)

/-- `Record.edit_phone`: when `old` is found, `add_phone(new)` runs first
(raising with the record unchanged when `new` is invalid) and then
`remove_phone(old)`; when `old` is absent it raises `ValueError`. -/
def edit_phone (r : Record) (oldv newv : Str) : Except (String × Record) Record :=
  match find_phone r oldv with
  | some _ =>
    match add_phone r newv with
    | .ok r' => .ok (remove_phone r' oldv)
    | .error (e, r') => .error (e, r')
  | none => .error ("Old number not found!", r)

/-! ## `AddressBook` -/

/-- The `UserDict` data of an `AddressBook`: an insertion-ordered mapping from
name string to record (Python dicts preserve insertion order; overwriting an
existing key keeps its position). -/
abbrev AddressBook := List (Str × Record)

/-- The keys present in the book. -/
def hasKey (b : AddressBook) (n : Str) : Bool := b.any (·.1 == n)

/-- `AddressBook.add_record`: `self.data[record.name.value] = record` —
overwrites in place when the key exists, else appends. -/
def add_record (b : AddressBook) (r : Record) : AddressBook :=
  if hasKey b r.name then
    b.map (fun kv => if kv.1 == r.name then (kv.1, r) else kv)
  else b ++ [(r.name, r)]

/-- `AddressBook.find`: `self.data.get(name, None)`. -/
def find (b : AddressBook) (n : Str) : Option Record :=
  (b.find? (·.1 == n)).map (·.2)

/-- `AddressBook.delete`: `if name in self.data: del self.data[name]`. -/
def delete (b : AddressBook) (n : Str) : AddressBook :=
  if hasKey b n then b.eraseP (·.1 == n) else b

/-- `self.data.values()` in insertion order. -/
def values (b : AddressBook) : List Record := b.map (·.2)

/-- `AddressBook.find_next_weekday(start_date, weekday)`:
`days_ahead = weekday - start_date.weekday(); if days_ahead <= 0: days_ahead += 7;
return start_date + timedelta(days=days_ahead)`. -/
def find_next_weekday (start : PyDate) (wd : Nat) : PyDate :=
  let daysAhead : Int := (wd : Int) - (weekday start : Int)
  let daysAhead := if daysAhead ≤ 0 then daysAhead + 7 else daysAhead
  addDays start daysAhead.toNat

/-- The body of `get_upcoming_birthdays`'s loop for one record: `none` when the
record has no birthday; otherwise re-parse the stored string, re-anchor onto
`today.year` (raising like `date.replace` can), re-anchor onto `today.year + 1`
when strictly before today, roll weekend dates forward to Monday (where the
`timedelta` addition can overflow past year 9999, an `OverflowError`), and keep
the record when `0 <= (candidate - today).days <= days`. -/
def processRecord (today : PyDate) (days : Int) (r : Record) :
    Except String (Option (Str × Str)) :=
  match r.birthday with
  | none => .ok none
  | some bstr =>
    match parseDMY bstr with
    | none => .error "ValueError: strptime"
    | some bd =>
      match replaceYear bd today.year with
      | none => .error "ValueError: day is out of range for month"
      | some c0 =>
        match (if pyLt c0 today then replaceYear c0 (today.year + 1) else some c0) with
        | none => .error "ValueError: day is out of range for month"
        | some c1 =>
          let c2 := if 5 ≤ weekday c1 then find_next_weekday c1 0 else c1
          if 9999 < c2.year then .error "OverflowError: date value out of range"
          else
            let diff : Int := (toOrdinal c2 : Int) - (toOrdinal today : Int)
            if 0 ≤ diff ∧ diff ≤ days then .ok (some (r.name, fmtDMY c2))
            else .ok none

/-- The loop of `get_upcoming_birthdays` over `self.data.values()`:
appends the kept pairs in iteration order, propagating the first exception. -/
def upcomingLoop (today : PyDate) (days : Int) :
    List Record → Except String (List (Str × Str))
  | [] => .ok []
  | r :: rest =>
    match processRecord today days r with
    | .error e => .error e
    | .ok o =>
      match upcomingLoop today days rest with
      | .error e => .error e
      | .ok tail => .ok (o.toList ++ tail)

/-- `AddressBook.get_upcoming_birthdays(days)`, with `today` (Python's
`date.today()`) passed explicitly. -/
def get_upcoming_birthdays (b : AddressBook) (today : PyDate) (days : Int) :
    Except String (List (Str × Str)) :=
  upcomingLoop today days (values b)

/-! ## Spec-side transcription of the upcoming-birthday description (claim C1)

These definitions follow the claim's wording, to be compared with the
source-derived `get_upcoming_birthdays`. -/

/-- Spec wording: "rolled forward by the minimal positive offset to the next
Monday" — the least `k ∈ 1..7` with `weekday (d + k) = Monday`. -/
def rollToMonday (d : PyDate) : Option PyDate :=
  ([1, 2, 3, 4, 5, 6, 7].find? fun k => weekday (addDays d k) == 0).map (addDays d)

/-- Spec wording for one record's candidate date: re-anchor the birthday's
month/day onto today's year; if strictly before today, re-anchor onto
`today.year + 1`; if the candidate falls on Saturday or Sunday, roll it
forward to the next Monday. -/
def specCandidate (today : PyDate) (bd : PyDate) : Option PyDate :=
  (replaceYear bd today.year).bind fun c0 =>
    (if pyLt c0 today then replaceYear c0 (today.year + 1) else some c0).bind fun c1 =>
      if weekday c1 = 5 ∨ weekday c1 = 6 then rollToMonday c1 else some c1

/-- Spec wording for one record with a birthday: the record is included iff
`0 ≤ (candidate - today).days ≤ daysAhead` after the roll, and the emitted
pair is `(name, rolled date formatted DD.MM.YYYY)`. -/
def specEntry (today : PyDate) (days : Int) (r : Record) :
    Option (Option (Str × Str)) :=
  r.birthday.bind fun b =>
    (parseDMY b).bind fun bd =>
      (specCandidate today bd).bind fun c =>
        let diff : Int := (toOrdinal c : Int) - (toOrdinal today : Int)
        some (if 0 ≤ diff ∧ diff ≤ days then some (r.name, fmtDMY c) else none)

/-- Spec wording for the whole query: process exactly the records that have a
birthday, in insertion order, keeping the included ones. -/
def specUpcoming (today : PyDate) (days : Int) : List Record → Option (List (Str × Str))
  | [] => some []
  | r :: rest =>
    if r.birthday.isSome then
      (specEntry today days r).bind fun o =>
        (specUpcoming today days rest).bind fun tail =>
          some (o.toList ++ tail)
    else specUpcoming today days rest

/-! ## Heap model for copy semantics (claim C8)

Python aliasing made explicit: phone lists and record objects live in a heap
addressed by allocation index; a book maps names to record addresses.
`Record.__deepcopy__` copies every attribute with `copy.deepcopy`, so the
copy's phone list is a fresh list object; `AddressBook.__deepcopy__` deep-copies
the `data` dict, producing fresh record objects. -/

/-- A heap-allocated record object: the phone list is held by reference. -/
structure HRecord where
  name : Str
  phonesAddr : Nat
  birthday : Option Str
  deriving DecidableEq, Repr

/-- The mutable store: phone-list cells and record cells, addressed by index;
allocation appends. -/
structure Heap where
  phoneLists : List (List Str)
  recs : List HRecord
  deriving Repr

/-- A book at heap level: name keys paired with record addresses. -/
abbrev HBook := List (Str × Nat)

/-- Dereference a phone-list address. -/
def getPhones (h : Heap) (a : Nat) : List Str := h.phoneLists.getD a []

/-- Dereference a record address. -/
def getRec (h : Heap) (a : Nat) : HRecord := h.recs.getD a ⟨[], 0, none⟩

/-- The observable value of the record at address `a`: name, phone-list
contents, birthday. -/
def readRecord (h : Heap) (a : Nat) : Str × List Str × Option Str :=
  (getRec h a |>.name, getPhones h (getRec h a).phonesAddr, (getRec h a).birthday)

/-- Allocate a phone-list cell. -/
def allocPhones (h : Heap) (ps : List Str) : Heap × Nat :=
  (⟨h.phoneLists ++ [ps], h.recs⟩, h.phoneLists.length)

/-- Allocate a record cell. -/
def allocRec (h : Heap) (r : HRecord) : Heap × Nat :=
  (⟨h.phoneLists, h.recs ++ [r]⟩, h.recs.length)

/-- `Record.__deepcopy__`: a fresh record object whose phone list is a fresh
cell holding the same contents (the birthday string is immutable data). -/
def deepcopyRec (h : Heap) (a : Nat) : Heap × Nat :=
  let r := getRec h a
  let (h1, pa) := allocPhones h (getPhones h r.phonesAddr)
  allocRec h1 ⟨r.name, pa, r.birthday⟩

/-- `AddressBook.__deepcopy__`: a fresh map with deep-copied records. -/
def deepcopyBook (h : Heap) : HBook → Heap × HBook
  | [] => (h, [])
  | (k, a) :: rest =>
    ((deepcopyBook (deepcopyRec h a).1 rest).1,
      (k, (deepcopyRec h a).2) :: (deepcopyBook (deepcopyRec h a).1 rest).2)

/-- Mutate the phone list of the record at address `a` in place
(e.g. `record.phones.append(...)`). -/
def writePhones (h : Heap) (a : Nat) (f : List Str → List Str) : Heap :=
  ⟨h.phoneLists.set (getRec h a).phonesAddr (f (getPhones h (getRec h a).phonesAddr)),
   h.recs⟩

/-- Rebind the birthday attribute of the record at address `a`. -/
def writeBirthday (h : Heap) (a : Nat) (b : Option Str) : Heap :=
  ⟨h.phoneLists, h.recs.set a ⟨(getRec h a).name, (getRec h a).phonesAddr, b⟩⟩

/-- Well-formedness: every record address of the book is allocated, and its
phone-list address is allocated. -/
def WFBook (h : Heap) (bk : HBook) : Prop :=
  ∀ e ∈ bk, e.2 < h.recs.length ∧ (getRec h e.2).phonesAddr < h.phoneLists.length

/-! ## Theorems -/

/-- C2: Phone construction fails unless the string is exactly 10 characters,
all decimal digits; a 10-digit string succeeds and the stored value
round-trips the exact input unchanged. -/
theorem C2_phone_validation (s : Str) :
    ((mkPhone s).isOk = true ↔ (s.length = 10 ∧ s.all Char.isDigit = true)) ∧
    (∀ t, mkPhone s = .ok t → t = s) := by
  have hiff : (pyIsdigit s && s.length == 10) = true ↔
      (s.length = 10 ∧ s.all Char.isDigit = true) := by
    unfold pyIsdigit
    simp only [Bool.and_eq_true, beq_iff_eq, Bool.not_eq_true']
    constructor
    · intro h; exact ⟨h.2, h.1.2⟩
    · rintro ⟨h10, hdig⟩
      refine ⟨⟨?_, hdig⟩, h10⟩
      rcases s with _ | ⟨c, cs⟩
      · simp at h10
      · rfl
  unfold mkPhone
  split_ifs with h
  · exact ⟨by simpa [Except.isOk, Except.toBool] using hiff.mp h,
      fun t ht => by cases ht; rfl⟩
  · refine ⟨?_, fun t ht => by cases ht⟩
    simp only [Except.isOk, Except.toBool]
    constructor
    · intro hc; cases hc
    · intro hd; exact absurd (hiff.mpr hd) h

/-- C2 witness: "0123456789" passes, and the theorem's equivalence applies. -/
theorem C2_phone_validation_w : (mkPhone (str "0123456789")).isOk = true :=
  (C2_phone_validation (str "0123456789")).1.mpr (by decide)

/-- C4 counterexample: on a record that already holds the phone "1234567890",
`add_phone` of that same value followed by `remove_phone` leaves one
occurrence behind, so `find_phone` still returns it (the claim asserts it
would be absent for every record). -/
theorem C4_add_remove_cex :
    add_phone ⟨str "A", [str "1234567890"], none⟩ (str "1234567890")
      = .ok ⟨str "A", [str "1234567890", str "1234567890"], none⟩ ∧
    find_phone
        (remove_phone ⟨str "A", [str "1234567890", str "1234567890"], none⟩
          (str "1234567890"))
        (str "1234567890")
      = some (str "1234567890") := ⟨rfl, rfl⟩

/-- C4 (amended): on a record with no phone equal to `v`, `add_phone v`
followed by `remove_phone v` leaves `find_phone v` absent. -/
theorem C4_add_remove_absent (r : Record) (v : Str)
    (hv : find_phone r v = none) (r' : Record)
    (hadd : add_phone r v = .ok r') :
    find_phone (remove_phone r' v) v = none := by
  have hv' : List.find? (fun x => x == v) r.phones = none := hv
  have hnotin : v ∉ r.phones := by
    intro hmem
    rw [List.find?_eq_none] at hv'
    exact absurd (by simp : (v == v) = true) (hv' v hmem)
  unfold add_phone at hadd
  rcases hmk : mkPhone v with e | p
  all_goals rw [hmk] at hadd
  · cases hadd
  · unfold mkPhone at hmk
    split_ifs at hmk with hc
    cases hmk
    cases hadd
    have hf : find_phone ⟨r.name, r.phones ++ [v], r.birthday⟩ v = some v := by
      unfold find_phone
      rw [List.find?_append, hv', Option.none_or]
      simp
    have hrm : remove_phone ⟨r.name, r.phones ++ [v], r.birthday⟩ v
        = ⟨r.name, r.phones, r.birthday⟩ := by
      unfold remove_phone
      rw [hf]
      have : (r.phones ++ [v]).erase v = r.phones := by
        rw [List.erase_append_right _ hnotin, List.erase_cons_head, List.append_nil]
      simp [this]
    rw [hrm]
    exact hv

/-- C4 witness for the amended theorem: a fresh record, phone "1234567890". -/
theorem C4_add_remove_absent_w :
    find_phone
        (remove_phone ⟨str "A", [str "1234567890"], none⟩ (str "1234567890"))
        (str "1234567890")
      = none :=
  C4_add_remove_absent ⟨str "A", [], none⟩ (str "1234567890") rfl _ rfl

/-- C5: `edit_phone old new` with no phone equal to `old` fails with the
not-found error and the record unchanged; with `old` present and `new` valid
it appends the validated new value and then removes the old one. -/
theorem C5_edit_phone (r : Record) (oldv newv : Str) :
    (find_phone r oldv = none →
      edit_phone r oldv newv = .error ("Old number not found!", r)) ∧
    (find_phone r oldv ≠ none → (pyIsdigit newv && newv.length == 10) = true →
      edit_phone r oldv newv
        = .ok (remove_phone ⟨r.name, r.phones ++ [newv], r.birthday⟩ oldv)) := by
  constructor
  · intro hnone
    unfold edit_phone
    rw [hnone]
  · intro hsome hval
    unfold edit_phone
    rcases hf : find_phone r oldv with _ | p
    · exact absurd hf hsome
    · unfold add_phone mkPhone
      rw [if_pos hval]

/-- C5 witness: old "1111111111" absent → error; old present, new valid →
append-then-remove. -/
theorem C5_edit_phone_w :
    edit_phone ⟨str "A", [], none⟩ (str "1111111111") (str "2222222222")
      = .error ("Old number not found!", ⟨str "A", [], none⟩) ∧
    edit_phone ⟨str "A", [str "1111111111"], none⟩ (str "1111111111") (str "2222222222")
      = .ok (remove_phone
          ⟨str "A", [str "1111111111", str "2222222222"], none⟩ (str "1111111111")) :=
  ⟨(C5_edit_phone ⟨str "A", [], none⟩ (str "1111111111") (str "2222222222")).1 rfl,
   (C5_edit_phone ⟨str "A", [str "1111111111"], none⟩ (str "1111111111")
      (str "2222222222")).2 (by decide) (by decide)⟩

/-- C6: no partial mutation on failure — every error path of `add_phone`,
`add_birthday` and `edit_phone` surfaces with the record exactly as it was
(validate-then-commit; `edit_phone` with `old` present but `new` invalid
neither removes `old` nor appends anything). -/
theorem C6_failure_atomic (r : Record) (v oldv newv : Str) (e : String) (r' : Record) :
    (add_phone r v = .error (e, r') → r' = r) ∧
    (add_birthday r v = .error (e, r') → r' = r) ∧
    (edit_phone r oldv newv = .error (e, r') → r' = r) := by
  unfold edit_phone add_phone add_birthday
  rcases find_phone r oldv with _ | p <;>
    rcases mkPhone v with p1 | e1 <;>
    rcases mkPhone newv with p2 | e2 <;>
    rcases mkBirthday v with p3 | e3 <;>
    refine ⟨fun h => ?_, fun h => ?_, fun h => ?_⟩ <;>
    simp_all

/-- C6 witness: invalid phone "12a" on a one-phone record leaves it intact. -/
theorem C6_failure_atomic_w :
    (⟨str "A", [str "1111111111"], none⟩ : Record) = ⟨str "A", [str "1111111111"], none⟩ :=
  (C6_failure_atomic ⟨str "A", [str "1111111111"], none⟩ (str "12a") (str "1111111111")
      (str "12a") "The number must consist of numbers only and 10 digits!"
      ⟨str "A", [str "1111111111"], none⟩).2.2 rfl

/-- C9: scenario — today 03.06.2024 (Monday), record "Dina" with birthday
"08.06.1995": the this-year date 08.06.2024 is a Saturday (weekday 5), rolls
to Monday 10.06.2024, is included with lookahead 7 and excluded with 6. -/
theorem C9_dina_scenario :
    get_upcoming_birthdays
        [(str "Dina", ⟨str "Dina", [], some (str "08.06.1995")⟩)] ⟨2024, 6, 3⟩ 7
      = .ok [(str "Dina", str "10.06.2024")] ∧
    get_upcoming_birthdays
        [(str "Dina", ⟨str "Dina", [], some (str "08.06.1995")⟩)] ⟨2024, 6, 3⟩ 6
      = .ok [] ∧
    weekday ⟨2024, 6, 8⟩ = 5 ∧
    find_next_weekday ⟨2024, 6, 8⟩ 0 = ⟨2024, 6, 10⟩ :=
  ⟨rfl, rfl, rfl, rfl⟩

/-- The AddressBook key invariant: every stored record's `name` equals its key. -/
def InvBook (b : AddressBook) : Prop := ∀ kv ∈ b, kv.2.name = kv.1

lemma find_overwrite (b : AddressBook) (r : Record) (hk : hasKey b r.name = true) :
    find (b.map fun kv => if kv.1 == r.name then (kv.1, r) else kv) r.name = some r := by
  induction b with
  | nil => cases hk
  | cons kv rest ih =>
    cases h1 : (kv.1 == r.name) with
    | true =>
      unfold find
      rw [List.map_cons, if_pos h1, List.find?_cons_of_pos _ (by simpa using h1)]
      rfl
    | false =>
      have hk' : hasKey rest r.name = true := by
        unfold hasKey at hk
        simp only [List.any_cons, h1, Bool.false_or] at hk
        exact hk
      unfold find at ih ⊢
      simp only [List.map_cons, h1, Bool.false_eq_true, if_false, List.find?_cons, h1]
      exact ih hk'

lemma find_append_fresh (b : AddressBook) (r : Record) (hk : hasKey b r.name = false) :
    find (b ++ [(r.name, r)]) r.name = some r := by
  have hnone : b.find? (fun kv => kv.1 == r.name) = none := by
    rw [List.find?_eq_none]
    intro kv hkv
    unfold hasKey at hk
    rw [List.any_eq_false] at hk
    exact fun hc => hk kv hkv hc
  unfold find
  rw [List.find?_append, hnone, Option.none_or]
  simp

/-- C7: the name-equals-key invariant is preserved by `add_record` and
`delete`; `find` on a missing key returns `none` rather than erroring;
`delete` on a missing key is a no-op; and `add_record` inserts or overwrites
under `record.name` (last write wins), so `find` at that key returns the new
record. -/
theorem C7_book_invariant (b : AddressBook) (r : Record) (n : Str) :
    (InvBook b → InvBook (add_record b r)) ∧
    (InvBook b → InvBook (delete b n)) ∧
    (hasKey b n = false → find b n = none) ∧
    (hasKey b n = false → delete b n = b) ∧
    find (add_record b r) r.name = some r := by
  refine ⟨?_, ?_, ?_, ?_, ?_⟩
  · intro hinv kv hkv
    unfold add_record at hkv
    split_ifs at hkv with hk
    · rw [List.mem_map] at hkv
      obtain ⟨kv0, hkv0, heq⟩ := hkv
      by_cases h1 : (kv0.1 == r.name) = true
      · rw [if_pos h1] at heq
        subst heq
        exact (beq_iff_eq.mp h1).symm ▸ rfl
      · rw [if_neg h1] at heq
        subst heq
        exact hinv kv0 hkv0
    · rw [List.mem_append] at hkv
      rcases hkv with h | h
      · exact hinv kv h
      · rw [List.mem_singleton] at h
        subst h
        rfl
  · intro hinv kv hkv
    unfold delete at hkv
    split_ifs at hkv with hk
    · exact hinv kv ((List.eraseP_sublist b).mem hkv)
    · exact hinv kv hkv
  · intro hk
    unfold find
    have : b.find? (fun kv => kv.1 == n) = none := by
      rw [List.find?_eq_none]
      intro kv hkv
      unfold hasKey at hk
      rw [List.any_eq_false] at hk
      exact fun hc => hk kv hkv hc
    rw [this]
    rfl
  · intro hk
    unfold delete
    rw [if_neg (by simp [hk])]
  · unfold add_record
    split_ifs with hk
    · exact find_overwrite b r hk
    · exact find_append_fresh b r (by simpa using hk)

/-- C7 witness: a one-record book, fresh and overwriting inserts, absent-key
`find` and `delete`. -/
theorem C7_book_invariant_w :
    find (add_record [] ⟨str "A", [], none⟩) (str "A") = some ⟨str "A", [], none⟩ ∧
    find ([(str "A", ⟨str "A", [], none⟩)] : AddressBook) (str "B") = none ∧
    delete ([(str "A", ⟨str "A", [], none⟩)] : AddressBook) (str "B")
      = [(str "A", ⟨str "A", [], none⟩)] :=
  ⟨(C7_book_invariant [] ⟨str "A", [], none⟩ (str "A")).2.2.2.2,
   (C7_book_invariant [(str "A", ⟨str "A", [], none⟩)] ⟨str "A", [], none⟩
      (str "B")).2.2.1 (by decide),
   (C7_book_invariant [(str "A", ⟨str "A", [], none⟩)] ⟨str "A", [], none⟩
      (str "B")).2.2.2.1 (by decide)⟩

lemma isLeap_succ_false (y : Nat) (h : isLeap y = true) : isLeap (y + 1) = false := by
  unfold isLeap at h ⊢
  simp only [Bool.and_eq_true, beq_iff_eq, Bool.or_eq_true, bne_iff_ne] at h
  have h4 : y % 4 = 0 := h.1
  have : ¬((y + 1) % 4 = 0) := by omega
  simp [this]

lemma upcomingLoop_error (today : PyDate) (days : Int) (rs : List Record)
    (r : Record) (hr : r ∈ rs) (he : ∃ e, processRecord today days r = .error e) :
    ∃ e, upcomingLoop today days rs = .error e := by
  induction rs with
  | nil => cases hr
  | cons hd tl ih =>
    rcases List.mem_cons.mp hr with heq | htl
    · subst heq
      obtain ⟨e, he⟩ := he
      exact ⟨e, by unfold upcomingLoop; rw [he]⟩
    · rcases hp : processRecord today days hd with e | o
      · exact ⟨e, by unfold upcomingLoop; rw [hp]⟩
      · obtain ⟨e, hloop⟩ := ih htl
        exact ⟨e, by unfold upcomingLoop; rw [hp, hloop]⟩

lemma processRecord_feb29 (today : PyDate) (days : Int) (r : Record) (bstr : Str)
    (hb : r.birthday = some bstr) (bd : PyDate) (hp : parseDMY bstr = some bd)
    (hm : bd.month = 2) (hd : bd.day = 29) (htoday : validDate today = true)
    (hcase : isLeap today.year = false ∨ pyLt ⟨today.year, 2, 29⟩ today = true) :
    ∃ e, processRecord today days r = .error e := by
  have hyr : 1 ≤ today.year ∧ today.year ≤ 9999 := by
    unfold validDate validShape at htoday
    simp only [Bool.and_eq_true, decide_eq_true_eq] at htoday
    exact ⟨htoday.1.1.1.1.1, htoday.2⟩
  rcases hl : isLeap today.year with _ | _
  · have hnone : replaceYear bd today.year = none := by
      unfold replaceYear validDate validShape daysInMonth
      rw [hm, hd, hl]
      simp
    exact ⟨"ValueError: day is out of range for month",
      by simp only [processRecord, hb, hp, hnone]⟩
  · rcases hcase with hnl | hlt
    · rw [hl] at hnl; cases hnl
    · have hsome : replaceYear bd today.year = some ⟨today.year, 2, 29⟩ := by
        unfold replaceYear validDate validShape daysInMonth
        rw [hm, hd, hl]
        rw [if_pos (by simp; omega)]
      have hnone2 : replaceYear ⟨today.year, 2, 29⟩ (today.year + 1) = none := by
        unfold replaceYear validDate validShape daysInMonth
        rw [isLeap_succ_false today.year hl]
        simp
      exact ⟨"ValueError: day is out of range for month",
        by simp only [processRecord, hb, hp, hsome, hlt, if_true, hnone2]⟩

/-- C10: `get_upcoming_birthdays` is partial over validly constructed
birthdays — a record whose stored birthday parses to Feb 29 (of a leap year)
makes the whole query raise `ValueError` whenever the re-anchoring target year
(today's year, or today's year + 1 after the past-date adjustment) is not a
leap year. -/
theorem C10_feb29_partial (b : AddressBook) (today : PyDate) (days : Int)
    (k : Str) (r : Record) (hin : (k, r) ∈ b) (bstr : Str)
    (hb : r.birthday = some bstr) (bd : PyDate) (hp : parseDMY bstr = some bd)
    (hm : bd.month = 2) (hd : bd.day = 29) (htoday : validDate today = true)
    (hcase : isLeap today.year = false ∨ pyLt ⟨today.year, 2, 29⟩ today = true) :
    ∃ e, get_upcoming_birthdays b today days = .error e :=
  upcomingLoop_error today days (values b) r
    (List.mem_map.mpr ⟨(k, r), hin, rfl⟩)
    (processRecord_feb29 today days r bstr hb bd hp hm hd htoday hcase)

/-- C10 witness: birthday "29.02.2020", today 01.05.2023 (2023 not leap). -/
theorem C10_feb29_partial_w :
    ∃ e, get_upcoming_birthdays
        [(str "A", ⟨str "A", [], some (str "29.02.2020")⟩)] ⟨2023, 5, 1⟩ 7
      = .error e :=
  C10_feb29_partial [(str "A", ⟨str "A", [], some (str "29.02.2020")⟩)]
    ⟨2023, 5, 1⟩ 7 (str "A") ⟨str "A", [], some (str "29.02.2020")⟩ (by simp)
    (str "29.02.2020") rfl ⟨2020, 2, 29⟩ (by decide) rfl rfl (by decide)
    (Or.inl (by decide))

lemma digitChar_isDigit (n : Nat) (h : n < 10) : (digitChar n).isDigit = true := by
  interval_cases n <;> decide

lemma digToNat_digitChar (n : Nat) (h : n < 10) : digToNat (digitChar n) = n := by
  interval_cases n <;> decide

lemma digitChar_ne_dot (n : Nat) : digitChar n ≠ '.' := by
  unfold digitChar
  split_ifs <;> decide

lemma splitDots_cons (c : Char) (rest : Str) :
    splitDots (c :: rest) =
      if c = '.' then [] :: splitDots rest
      else
        match splitDots rest with
        | g :: gs => (c :: g) :: gs
        | [] => [[c]] := rfl

lemma splitDots_no_dot (a : Str) (h : ∀ c ∈ a, c ≠ '.') : splitDots a = [a] := by
  induction a with
  | nil => rfl
  | cons c cs ih =>
    rw [splitDots_cons, if_neg (h c (.head _)), ih fun x hx => h x (.tail _ hx)]

lemma splitDots_append (a r : Str) (h : ∀ c ∈ a, c ≠ '.') :
    splitDots (a ++ '.' :: r) = a :: splitDots r := by
  induction a with
  | nil =>
    show splitDots ('.' :: r) = [] :: splitDots r
    rw [splitDots_cons, if_pos rfl]
  | cons c cs ih =>
    show splitDots (c :: (cs ++ '.' :: r)) = (c :: cs) :: splitDots r
    rw [splitDots_cons, if_neg (h c (.head _)), ih fun x hx => h x (.tail _ hx)]

lemma pad2_all_digit (n : Nat) : (pad2 n).all Char.isDigit = true := by
  unfold pad2
  simp only [List.all_cons, List.all_nil, Bool.and_true, Bool.and_eq_true]
  exact ⟨digitChar_isDigit _ (Nat.mod_lt _ (by omega)),
    digitChar_isDigit _ (Nat.mod_lt _ (by omega))⟩

lemma pad2_ne_dot (n : Nat) : ∀ c ∈ pad2 n, c ≠ '.' := by
  unfold pad2
  intro c hc
  rcases hc with _ | ⟨_, _ | ⟨_, h⟩⟩ <;> first | exact digitChar_ne_dot _ | cases h


lemma pad4_all_digit (n : Nat) : (pad4 n).all Char.isDigit = true := by
  unfold pad4
  simp only [List.all_cons, List.all_nil, Bool.and_true, Bool.and_eq_true]
  exact ⟨digitChar_isDigit _ (Nat.mod_lt _ (by omega)),
    digitChar_isDigit _ (Nat.mod_lt _ (by omega)),
    digitChar_isDigit _ (Nat.mod_lt _ (by omega)),
    digitChar_isDigit _ (Nat.mod_lt _ (by omega))⟩

lemma pad4_ne_dot (n : Nat) : ∀ c ∈ pad4 n, c ≠ '.' := by
  unfold pad4
  intro c hc
  rcases hc with _ | ⟨_, _ | ⟨_, _ | ⟨_, _ | ⟨_, h⟩⟩⟩⟩ <;>
    first | exact digitChar_ne_dot _ | cases h

lemma strToNat_pad2 (n : Nat) (h : n < 100) : strToNat (pad2 n) = n := by
  unfold strToNat pad2
  simp only [List.foldl_cons, List.foldl_nil]
  rw [digToNat_digitChar _ (Nat.mod_lt _ (by omega)),
    digToNat_digitChar _ (Nat.mod_lt _ (by omega))]
  omega

lemma strToNat_pad4 (n : Nat) (h : n < 10000) : strToNat (pad4 n) = n := by
  unfold strToNat pad4
  simp only [List.foldl_cons, List.foldl_nil]
  rw [digToNat_digitChar _ (Nat.mod_lt _ (by omega)),
    digToNat_digitChar _ (Nat.mod_lt _ (by omega)),
    digToNat_digitChar _ (Nat.mod_lt _ (by omega)),
    digToNat_digitChar _ (Nat.mod_lt _ (by omega))]
  omega

lemma matchDay_pad2 (n : Nat) (h1 : 1 ≤ n) (h31 : n ≤ 31) :
    matchDay (pad2 n) = some n := by
  unfold matchDay
  rw [strToNat_pad2 n (by omega)]
  rw [if_pos (by simp [pad2_all_digit n, show (pad2 n).length = 2 from rfl, h1, h31])]

lemma matchMonth_pad2 (n : Nat) (h1 : 1 ≤ n) (h12 : n ≤ 12) :
    matchMonth (pad2 n) = some n := by
  unfold matchMonth
  rw [strToNat_pad2 n (by omega)]
  rw [if_pos (by simp [pad2_all_digit n, show (pad2 n).length = 2 from rfl, h1, h12])]

lemma matchYear_pad4 (n : Nat) (h : n < 10000) : matchYear (pad4 n) = some n := by
  unfold matchYear
  rw [strToNat_pad4 n h]
  rw [if_pos (by simp [pad4_all_digit n, show (pad4 n).length = 4 from rfl])]

lemma daysInMonth_le_31 (y m : Nat) : daysInMonth y m ≤ 31 := by
  unfold daysInMonth
  split_ifs <;> omega

lemma parseDMY_fmtDMY (d : PyDate) (h : validDate d = true) :
    parseDMY (fmtDMY d) = some d := by
  obtain ⟨y, m, dd⟩ := d
  have hb : 1 ≤ y ∧ y ≤ 9999 ∧ 1 ≤ m ∧ m ≤ 12 ∧ 1 ≤ dd ∧ dd ≤ daysInMonth y m := by
    unfold validDate validShape at h
    simp only [Bool.and_eq_true, decide_eq_true_eq] at h
    exact ⟨h.1.1.1.1.1, h.2, h.1.1.1.1.2, h.1.1.1.2, h.1.1.2, h.1.2⟩
  have hdd31 : dd ≤ 31 := le_trans hb.2.2.2.2.2 (daysInMonth_le_31 y m)
  unfold fmtDMY parseDMY
  rw [splitDots_append _ _ (pad2_ne_dot dd),
    splitDots_append _ _ (pad2_ne_dot m),
    splitDots_no_dot _ (pad4_ne_dot y)]
  simp [matchDay_pad2 dd hb.2.2.2.2.1 hdd31, matchMonth_pad2 m hb.2.2.1 hb.2.2.2.1,
    matchYear_pad4 y (by omega), h]

/-- C3: Birthday construction fails unless the string parses as a real
calendar date under the fixed `day.month.year` pattern with a 4-digit year
(in particular "30.02.2024" fails); success stores the input unchanged, only
real calendar dates are accepted, and every valid date's formatted string
parses back to exactly that date. -/
theorem C3_birthday_validation :
    (∀ s t, mkBirthday s = .ok t → t = s) ∧
    (∀ s bd, parseDMY s = some bd → validDate bd = true) ∧
    (∀ d : PyDate, validDate d = true →
      mkBirthday (fmtDMY d) = .ok (fmtDMY d) ∧ parseDMY (fmtDMY d) = some d) ∧
    (mkBirthday (str "30.02.2024")).isOk = false := by
  refine ⟨?_, ?_, ?_, by decide⟩
  · intro s t h
    unfold mkBirthday at h
    rcases hp : parseDMY s with _ | p
    all_goals rw [hp] at h
    · cases h
    · cases h; rfl
  · intro s bd h
    unfold parseDMY at h
    split at h
    · rename_i x ds ms ys hsp
      rcases hd : matchDay ds with _ | dv
      · rw [hd] at h; simp at h
      · rw [hd] at h
        rcases hm : matchMonth ms with _ | mv
        · rw [hm] at h; simp at h
        · rw [hm] at h
          rcases hy : matchYear ys with _ | yv
          · rw [hy] at h; simp at h
          · rw [hy] at h
            simp at h
            obtain ⟨hv, hbd⟩ := h
            subst hbd
            exact hv
    · cases h
  · intro d hd
    refine ⟨?_, parseDMY_fmtDMY d hd⟩
    unfold mkBirthday
    rw [parseDMY_fmtDMY d hd]

/-- C3 witness: the valid date 08.06.1995 round-trips through format/parse. -/
theorem C3_birthday_validation_w :
    mkBirthday (fmtDMY ⟨1995, 6, 8⟩) = .ok (fmtDMY ⟨1995, 6, 8⟩) ∧
    parseDMY (fmtDMY ⟨1995, 6, 8⟩) = some ⟨1995, 6, 8⟩ :=
  C3_birthday_validation.2.2.1 ⟨1995, 6, 8⟩ (by decide)

/-! ## Calendar arithmetic lemmas (for the refinement proof of C1) -/

lemma daysInMonth_pos (y m : Nat) : 1 ≤ daysInMonth y m := by
  unfold daysInMonth
  split_ifs <;> omega

lemma validShape_succDay (d : PyDate) (h : validShape d = true) :
    validShape (succDay d) = true := by
  obtain ⟨y, m, dd⟩ := d
  unfold validShape at h
  simp only [Bool.and_eq_true, decide_eq_true_eq] at h
  obtain ⟨⟨⟨⟨hy, hm1⟩, hm12⟩, hd1⟩, hdm⟩ := h
  unfold succDay
  dsimp only
  split_ifs with h1 h2 <;>
    (unfold validShape; dsimp only; simp only [Bool.and_eq_true, decide_eq_true_eq])
  · exact ⟨⟨⟨⟨hy, hm1⟩, hm12⟩, by omega⟩, by omega⟩
  · exact ⟨⟨⟨⟨hy, by omega⟩, by omega⟩, by omega⟩, daysInMonth_pos y (m + 1)⟩
  · exact ⟨⟨⟨⟨by omega, by omega⟩, by omega⟩, by omega⟩, daysInMonth_pos (y + 1) 1⟩

lemma daysBeforeMonth_succ (y m : Nat) (h1 : 1 ≤ m) (h11 : m ≤ 11) :
    daysBeforeMonth y (m + 1) = daysBeforeMonth y m + daysInMonth y m := by
  unfold daysBeforeMonth daysInMonth
  cases hL : isLeap y <;> simp only [hL] <;> interval_cases m <;> simp

lemma isLeap_iff (y : Nat) :
    isLeap y = true ↔ (y % 4 = 0 ∧ (y % 100 ≠ 0 ∨ y % 400 = 0)) := by
  unfold isLeap
  simp [Bool.and_eq_true, Bool.or_eq_true]

set_option maxHeartbeats 1000000 in
lemma toOrdinal_succDay (d : PyDate) (h : validShape d = true) :
    toOrdinal (succDay d) = toOrdinal d + 1 := by
  obtain ⟨y, m, dd⟩ := d
  unfold validShape at h
  simp only [Bool.and_eq_true, decide_eq_true_eq] at h
  obtain ⟨⟨⟨⟨hy, hm1⟩, hm12⟩, hd1⟩, hdm⟩ := h
  unfold succDay
  dsimp only
  split_ifs with h1 h2
  · simp only [toOrdinal]
    omega
  · have hdd : dd = daysInMonth y m := by omega
    subst hdd
    simp only [toOrdinal]
    rw [daysBeforeMonth_succ y m hm1 (by omega)]
    omega
  · have hm : m = 12 := by omega
    subst hm
    have hd12 : daysInMonth y 12 = 31 := by simp [daysInMonth]
    have hdd : dd = 31 := by omega
    subst hdd
    simp only [toOrdinal]
    have hb12 : daysBeforeMonth y 12 = 334 + (if isLeap y then 1 else 0) := by
      simp [daysBeforeMonth]
    have hb1 : daysBeforeMonth (y + 1) 1 = 0 := by
      simp [daysBeforeMonth]
    by_cases hL : isLeap y = true
    · have hl := (isLeap_iff y).mp hL
      rw [hb12, hb1, if_pos hL]
      clear hb12 hb1 hd12 hdm h1 h2 hL
      omega
    · have hnl : ¬(y % 4 = 0 ∧ (y % 100 ≠ 0 ∨ y % 400 = 0)) :=
        fun hc => hL ((isLeap_iff y).mpr hc)
      rw [hb12, hb1, if_neg hL]
      clear hb12 hb1 hd12 hdm h1 h2 hL
      omega

lemma validShape_addDays (d : PyDate) (k : Nat) (h : validShape d = true) :
    validShape (addDays d k) = true := by
  induction k with
  | zero => exact h
  | succ n ih =>
    show validShape (succDay^[n + 1] d) = true
    rw [Function.iterate_succ_apply']
    exact validShape_succDay _ ih

lemma toOrdinal_addDays (d : PyDate) (k : Nat) (h : validShape d = true) :
    toOrdinal (addDays d k) = toOrdinal d + k := by
  induction k with
  | zero => rfl
  | succ n ih =>
    have hv : validShape (succDay^[n] d) = true := validShape_addDays d n h
    have hs : toOrdinal (succDay (succDay^[n] d)) = toOrdinal (succDay^[n] d) + 1 :=
      toOrdinal_succDay _ hv
    have ih' : toOrdinal (succDay^[n] d) = toOrdinal d + n := ih
    show toOrdinal (succDay^[n + 1] d) = toOrdinal d + (n + 1)
    rw [Function.iterate_succ_apply', hs, ih']
    omega

lemma weekday_addDays (d : PyDate) (k : Nat) (h : validShape d = true) :
    weekday (addDays d k) = (weekday d + k) % 7 := by
  unfold weekday
  rw [toOrdinal_addDays d k h]
  omega

lemma replaceYear_shape (d : PyDate) (y : Nat) (c : PyDate)
    (h : replaceYear d y = some c) : validShape c = true := by
  unfold replaceYear at h
  split_ifs at h with hv
  cases h
  exact ((Bool.and_eq_true _ _).mp hv).1

lemma rollToMonday_eq_findNext (d : PyDate) (hv : validShape d = true)
    (hw : weekday d = 5 ∨ weekday d = 6) :
    rollToMonday d = some (find_next_weekday d 0) := by
  rcases hw with hw | hw
  · have h1 : weekday (addDays d 1) = 6 := by rw [weekday_addDays d 1 hv, hw]
    have h2 : weekday (addDays d 2) = 0 := by rw [weekday_addDays d 2 hv, hw]
    unfold rollToMonday
    have hf : ([1, 2, 3, 4, 5, 6, 7] : List Nat).find?
        (fun k => weekday (addDays d k) == 0) = some 2 := by
      simp [List.find?_cons, h1, h2]
    have hfn : find_next_weekday d 0 = addDays d 2 := by
      unfold find_next_weekday
      rw [hw]
      rfl
    rw [hf, hfn]
    rfl
  · have h1 : weekday (addDays d 1) = 0 := by
      rw [weekday_addDays d 1 hv, hw]
    unfold rollToMonday
    have hf : ([1, 2, 3, 4, 5, 6, 7] : List Nat).find?
        (fun k => weekday (addDays d k) == 0) = some 1 := by
      simp [List.find?_cons, h1]
    have hfn : find_next_weekday d 0 = addDays d 1 := by
      unfold find_next_weekday
      rw [hw]
      rfl
    rw [hf, hfn]
    rfl

lemma weekday_lt_7 (d : PyDate) : weekday d < 7 := Nat.mod_lt _ (by omega)

lemma obind_some {A B : Type} (a : A) (f : A → Option B) : (some a).bind f = f a := rfl

lemma processRecord_refines (today : PyDate) (days : Int) (nm : Str) (ph : List Str)
    (bstr : Str) (o : Option (Str × Str))
    (h : processRecord today days ⟨nm, ph, some bstr⟩ = .ok o) :
    specEntry today days ⟨nm, ph, some bstr⟩ = some o := by
  rcases hp : parseDMY bstr with _ | bd
  · simp only [processRecord, hp] at h
    exact Except.noConfusion h
  · simp only [processRecord, hp] at h
    rcases hc0 : replaceYear bd today.year with _ | c0
    · simp only [hc0] at h
      exact Except.noConfusion h
    · simp only [hc0] at h
      rcases hc1 : (if pyLt c0 today then replaceYear c0 (today.year + 1) else some c0)
          with _ | c1
      · simp only [hc1] at h
        exact Except.noConfusion h
      · simp only [hc1] at h
        have hshape : validShape c1 = true := by
          split_ifs at hc1
          · exact replaceYear_shape _ _ _ hc1
          · cases hc1
            exact replaceYear_shape _ _ _ hc0
        simp only [specEntry, specCandidate, obind_some, hp, hc0, hc1]
        by_cases hwk : 5 ≤ weekday c1
        · have hor : weekday c1 = 5 ∨ weekday c1 = 6 := by
            have := weekday_lt_7 c1
            omega
          rw [if_pos hwk] at h
          by_cases hof : 9999 < (find_next_weekday c1 0).year
          · rw [if_pos hof] at h
            exact Except.noConfusion h
          · rw [if_neg hof] at h
            rw [if_pos hor, rollToMonday_eq_findNext c1 hshape hor, obind_some]
            split_ifs at h ⊢ with hr
            · injection h with h'
              rw [h']
            · injection h with h'
              rw [h']
        · have hor : ¬(weekday c1 = 5 ∨ weekday c1 = 6) := by omega
          rw [if_neg hwk] at h
          by_cases hof : 9999 < c1.year
          · rw [if_pos hof] at h
            exact Except.noConfusion h
          · rw [if_neg hof] at h
            rw [if_neg hor, obind_some]
            split_ifs at h ⊢ with hr
            · injection h with h'
              rw [h']
            · injection h with h'
              rw [h']

lemma upcomingLoop_refines (today : PyDate) (days : Int) (rs : List Record)
    (out : List (Str × Str)) (h : upcomingLoop today days rs = .ok out) :
    specUpcoming today days rs = some out := by
  induction rs generalizing out with
  | nil =>
    unfold upcomingLoop at h
    cases h
    rfl
  | cons r rest ih =>
    unfold upcomingLoop at h
    rcases hpr : processRecord today days r with e | o
    · simp only [hpr] at h
      exact Except.noConfusion h
    · simp only [hpr] at h
      rcases hlp : upcomingLoop today days rest with e | tail
      · simp only [hlp] at h
        exact Except.noConfusion h
      · simp only [hlp] at h
        injection h with h'
        subst h'
        obtain ⟨nm, ph, bdo⟩ := r
        rcases hbd : bdo with _ | bstr
        · subst hbd
          have ho : o = none := by
            simp only [processRecord] at hpr
            injection hpr with h''
            exact h''.symm
          subst ho
          simp only [specUpcoming, Option.isSome_none, Bool.false_eq_true, if_false]
          simpa using ih tail hlp
        · subst hbd
          have hse := processRecord_refines today days nm ph bstr o hpr
          simp only [specUpcoming, Option.isSome_some, if_true]
          rw [hse, obind_some, ih tail hlp, obind_some]

/-- C1: whenever `get_upcoming_birthdays` returns a result (for any book and
any non-negative lookahead), that result is exactly what the specification
describes: the records that have a birthday, in insertion order, each
re-anchored onto today's year (onto today's year + 1 when strictly before
today), weekend candidates rolled forward by the minimal positive offset to
the next Monday, included iff `0 ≤ (candidate - today).days ≤ daysAhead`
after the roll, emitted as `(name, DD.MM.YYYY)`. -/
theorem C1_upcoming_refines_spec (b : AddressBook) (today : PyDate) (days : Int)
    (hdays : 0 ≤ days) (out : List (Str × Str))
    (h : get_upcoming_birthdays b today days = .ok out) :
    specUpcoming today days (values b) = some out :=
  upcomingLoop_refines today days (values b) out h

/-- C1 witness: the Dina book at today 03.06.2024 with lookahead 7. -/
theorem C1_upcoming_refines_spec_w :
    specUpcoming ⟨2024, 6, 3⟩ 7
        (values [(str "Dina", ⟨str "Dina", [], some (str "08.06.1995")⟩)])
      = some [(str "Dina", str "10.06.2024")] :=
  C1_upcoming_refines_spec
    [(str "Dina", ⟨str "Dina", [], some (str "08.06.1995")⟩)]
    ⟨2024, 6, 3⟩ 7 (by decide) [(str "Dina", str "10.06.2024")] rfl

/-! ## Deep-copy independence (claim C8) -/

/-! ## Deep-copy independence (claim C8) -/

lemma getD_append_left {A : Type} (l1 l2 : List A) (n : Nat) (d : A)
    (h : n < l1.length) : (l1 ++ l2).getD n d = l1.getD n d := by
  induction l1 generalizing n with
  | nil => cases h
  | cons x xs ih =>
    cases n with
    | zero => rfl
    | succ n' => exact ih n' (by simpa using h)

lemma getD_append_self {A : Type} (l : List A) (x d : A) :
    (l ++ [x]).getD l.length d = x := by
  induction l with
  | nil => rfl
  | cons y ys ih => exact ih

lemma getD_set_ne {A : Type} (l : List A) (i j : Nat) (v d : A) (h : i ≠ j) :
    (l.set i v).getD j d = l.getD j d := by
  induction l generalizing i j with
  | nil => rfl
  | cons x xs ih =>
    cases i with
    | zero =>
      cases j with
      | zero => exact absurd rfl h
      | succ j' => rfl
    | succ i' =>
      cases j with
      | zero => rfl
      | succ j' => exact ih i' j' (by omega)

lemma deepcopyRec_spec (h : Heap) (a : Nat) :
    (deepcopyRec h a).1.phoneLists
        = h.phoneLists ++ [getPhones h (getRec h a).phonesAddr] ∧
    (deepcopyRec h a).1.recs
        = h.recs ++ [⟨(getRec h a).name, h.phoneLists.length, (getRec h a).birthday⟩] ∧
    (deepcopyRec h a).2 = h.recs.length :=
  ⟨rfl, rfl, rfl⟩

lemma deepcopyBook_cons_fst (h : Heap) (k : Str) (a : Nat) (rest : HBook) :
    (deepcopyBook h ((k, a) :: rest)).1 = (deepcopyBook (deepcopyRec h a).1 rest).1 := rfl

lemma deepcopyBook_cons_snd (h : Heap) (k : Str) (a : Nat) (rest : HBook) :
    (deepcopyBook h ((k, a) :: rest)).2
      = (k, (deepcopyRec h a).2) :: (deepcopyBook (deepcopyRec h a).1 rest).2 := rfl

lemma deepcopyBook_ext (h : Heap) (bk : HBook) :
    ∃ p q, (deepcopyBook h bk).1.phoneLists = h.phoneLists ++ p ∧
      (deepcopyBook h bk).1.recs = h.recs ++ q := by
  induction bk generalizing h with
  | nil => exact ⟨[], [], by simp [deepcopyBook], by simp [deepcopyBook]⟩
  | cons e rest ih =>
    obtain ⟨k, a⟩ := e
    obtain ⟨p, q, hp, hq⟩ := ih (deepcopyRec h a).1
    rw [deepcopyBook_cons_fst]
    refine ⟨[getPhones h (getRec h a).phonesAddr] ++ p,
      [(⟨(getRec h a).name, h.phoneLists.length, (getRec h a).birthday⟩ : HRecord)] ++ q,
      ?_, ?_⟩
    · rw [hp, (deepcopyRec_spec h a).1, List.append_assoc]
    · rw [hq, (deepcopyRec_spec h a).2.1, List.append_assoc]

lemma deepcopyBook_fresh (h : Heap) (bk : HBook) :
    ∀ e ∈ (deepcopyBook h bk).2,
      h.recs.length ≤ e.2 ∧ e.2 < (deepcopyBook h bk).1.recs.length ∧
      h.phoneLists.length ≤ (getRec (deepcopyBook h bk).1 e.2).phonesAddr ∧
      (getRec (deepcopyBook h bk).1 e.2).phonesAddr
        < (deepcopyBook h bk).1.phoneLists.length := by
  induction bk generalizing h with
  | nil => intro e he; cases he
  | cons kv rest ih =>
    obtain ⟨k, a⟩ := kv
    intro e he
    rw [deepcopyBook_cons_snd] at he
    rw [deepcopyBook_cons_fst]
    have hrec1 : (deepcopyRec h a).1.recs.length = h.recs.length + 1 := by
      rw [(deepcopyRec_spec h a).2.1]
      simp
    have hph1 : (deepcopyRec h a).1.phoneLists.length = h.phoneLists.length + 1 := by
      rw [(deepcopyRec_spec h a).1]
      simp
    obtain ⟨p, q, hp, hq⟩ := deepcopyBook_ext (deepcopyRec h a).1 rest
    rcases List.mem_cons.mp he with heq | htl
    · subst heq
      dsimp only
      rw [(deepcopyRec_spec h a).2.2]
      have hget : getRec (deepcopyBook (deepcopyRec h a).1 rest).1 h.recs.length
          = ⟨(getRec h a).name, h.phoneLists.length, (getRec h a).birthday⟩ := by
        unfold getRec
        rw [hq, (deepcopyRec_spec h a).2.1,
          getD_append_left _ _ _ _ (by simp),
          getD_append_self]
        rfl
      rw [hget]
      refine ⟨le_refl _, ?_, le_refl _, ?_⟩
      · rw [hq]
        simp only [List.length_append]
        omega
      · rw [hp]
        simp only [List.length_append]
        omega
    · have hrest := ih (deepcopyRec h a).1 e htl
      exact ⟨by omega, hrest.2.1, by omega, hrest.2.2.2⟩

/-- C8: after `deepcopy`, mutating a phone list or rebinding the birthday of
any record reachable from the copied book leaves every record of the original
book observably unchanged — the deep copy shares no mutable sub-state with
the source. -/
theorem C8_deepcopy_no_aliasing (h : Heap) (bk : HBook) (hwf : WFBook h bk)
    (k : Str) (a : Nat) (hin : (k, a) ∈ bk)
    (k' : Str) (a' : Nat) (hin' : (k', a') ∈ (deepcopyBook h bk).2) :
    (∀ f, readRecord (writePhones (deepcopyBook h bk).1 a' f) a = readRecord h a) ∧
    (∀ b, readRecord (writeBirthday (deepcopyBook h bk).1 a' b) a = readRecord h a) := by
  obtain ⟨ha, hpa⟩ := hwf (k, a) hin
  obtain ⟨p, q, hp, hq⟩ := deepcopyBook_ext h bk
  obtain ⟨ha'1, ha'2, hpa'1, hpa'2⟩ := deepcopyBook_fresh h bk (k', a') hin'
  dsimp only at ha hpa ha'1 ha'2 hpa'1 hpa'2
  have hgr : getRec (deepcopyBook h bk).1 a = getRec h a := by
    unfold getRec
    rw [hq, getD_append_left _ _ _ _ ha]
  have hgp : getPhones (deepcopyBook h bk).1 (getRec h a).phonesAddr
      = getPhones h (getRec h a).phonesAddr := by
    unfold getPhones
    rw [hp, getD_append_left _ _ _ _ hpa]
  constructor
  · intro f
    have h1 : getRec (writePhones (deepcopyBook h bk).1 a' f) a = getRec h a := hgr
    have h2 : getPhones (writePhones (deepcopyBook h bk).1 a' f)
        (getRec h a).phonesAddr = getPhones h (getRec h a).phonesAddr := by
      unfold writePhones getPhones
      dsimp only
      rw [getD_set_ne _ _ _ _ _ (by omega)]
      exact hgp
    unfold readRecord
    rw [h1, h2]
  · intro b
    have h1 : getRec (writeBirthday (deepcopyBook h bk).1 a' b) a = getRec h a := by
      unfold writeBirthday getRec
      dsimp only
      rw [getD_set_ne _ _ _ _ _ (by omega)]
      exact hgr
    have h2 : getPhones (writeBirthday (deepcopyBook h bk).1 a' b)
        (getRec h a).phonesAddr = getPhones h (getRec h a).phonesAddr := hgp
    unfold readRecord
    rw [h1, h2]

/-- C8 witness: a one-record heap; appending a phone to the copy's record
leaves the original record unchanged. -/
theorem C8_deepcopy_no_aliasing_w :
    readRecord
        (writePhones
          (deepcopyBook ⟨[[str "1111111111"]], [⟨str "A", 0, none⟩]⟩ [(str "A", 0)]).1
          1 (fun l => l ++ [str "2222222222"])) 0
      = readRecord ⟨[[str "1111111111"]], [⟨str "A", 0, none⟩]⟩ 0 :=
  (C8_deepcopy_no_aliasing ⟨[[str "1111111111"]], [⟨str "A", 0, none⟩]⟩
      [(str "A", 0)] (by intro e he; simp at he; subst he; exact ⟨by decide, by decide⟩)
      (str "A") 0 (by simp) (str "A") 1 (by decide)).1
    (fun l => l ++ [str "2222222222"])

end HwM2
